import Mathlib

/-!
Verification of the `cuyat` star-sky core (`src/sky.rs`) against its
specification.  The Rust `f32` arithmetic is idealized as an arbitrary
linear ordered field (instantiated at `ℚ` for concrete evaluations and at
`ℝ` where the source uses transcendental functions: `powf`, `cos`, `sin`,
`to_radians`).  Machine floats are exact on all the small dyadic values used
in the concrete inputs below, so counterexamples computed over `ℚ` mirror
the `f32` computation exactly.
-/

namespace Cuyat

variable {α : Type} [LinearOrderedField α]

/-- A 3-vector, modelling `nalgebra::SVector<f32, 3>` (the `Star` and
`Position` aliases of `sky.rs`). -/
structure Vec3 (α : Type) : Type where
  x : α
  y : α
  z : α
deriving DecidableEq

/-- Componentwise subtraction `*s - pos` of `SVector<f32, 3>`. -/
def Vec3.sub (a b : Vec3 α) : Vec3 α :=
  ⟨a.x - b.x, a.y - b.y, a.z - b.z⟩

/-- `type StBrNm = (Star, Brightness, String)` from `sky.rs`.  The
`Brightness` newtype simply wraps one `f32`, so it is modelled by a plain
field element. -/
abbrev StBrNm (α : Type) : Type := Vec3 α × α × String

/-- A quaternion, modelling `nalgebra::Quaternion<f32>` (scalar part `w`,
vector part `x`, `y`, `z`). -/
structure Quat (α : Type) : Type where
  w : α
  x : α
  y : α
  z : α
deriving DecidableEq

/-- Hamilton product of quaternions, as used by nalgebra. -/
def qmul (a b : Quat α) : Quat α :=
  ⟨a.w * b.w - a.x * b.x - a.y * b.y - a.z * b.z,
   a.w * b.x + a.x * b.w + a.y * b.z - a.z * b.y,
   a.w * b.y - a.x * b.z + a.y * b.w + a.z * b.x,
   a.w * b.z + a.x * b.y - a.y * b.x + a.z * b.w⟩

/-- Quaternion conjugate. -/
def qconj (a : Quat α) : Quat α := ⟨a.w, -a.x, -a.y, -a.z⟩

/-- Squared norm of a quaternion; a `nalgebra::UnitQuaternion` has
`normSq = 1`. -/
def normSq (a : Quat α) : α := a.w ^ 2 + a.x ^ 2 + a.y ^ 2 + a.z ^ 2

/-- `UnitQuaternion::inverse` returns the conjugate (the inverse of a unit
quaternion). -/
def qinv (a : Quat α) : Quat α := qconj a

/-- A 3-vector viewed as a pure quaternion. -/
def ofVec (v : Vec3 α) : Quat α := ⟨0, v.x, v.y, v.z⟩

/-- The vector part of a quaternion. -/
def vecOf (a : Quat α) : Vec3 α := ⟨a.x, a.y, a.z⟩

/-- The conjugation `q * a * q̄` underlying the rotation action. -/
def sandwich (q a : Quat α) : Quat α := qmul (qmul q a) (qconj q)

/-- Rotation of a 3-vector by a quaternion: `q * v` in nalgebra computes
`q v q⁻¹ = q v q̄` for a unit quaternion `q` and keeps the vector part. -/
def rotate (q : Quat α) (v : Vec3 α) : Vec3 α := vecOf (sandwich q (ofVec v))

/-- `Sky::seen_from`: translate every star direction by `-pos`; brightness
and name are untouched (`sky.rs` lines 151–159). -/
def seenFrom (stars : List (StBrNm α)) (pos : Vec3 α) : List (StBrNm α) :=
  stars.map fun e => (e.1.sub pos, e.2.1, e.2.2)

/-- `Sky::with_attitude`: rotate every star direction by the quaternion `q`;
brightness and name are untouched (`sky.rs` lines 161–169). -/
def withAttitude (q : Quat α) (stars : List (StBrNm α)) : List (StBrNm α) :=
  stars.map fun e => (rotate q e.1, e.2.1, e.2.2)

theorem qmul_assoc (a b c : Quat α) : qmul (qmul a b) c = qmul a (qmul b c) := by
  simp only [qmul, Quat.mk.injEq]
  refine ⟨by ring, by ring, by ring, by ring⟩

theorem qconj_qmul (a b : Quat α) : qconj (qmul a b) = qmul (qconj b) (qconj a) := by
  simp only [qmul, qconj, Quat.mk.injEq]
  refine ⟨by ring, by ring, by ring, by ring⟩

theorem qconj_mul_self (a : Quat α) : qmul (qconj a) a = ⟨normSq a, 0, 0, 0⟩ := by
  simp only [qmul, qconj, normSq, Quat.mk.injEq]
  refine ⟨by ring, by ring, by ring, by ring⟩

theorem self_mul_qconj (a : Quat α) : qmul a (qconj a) = ⟨normSq a, 0, 0, 0⟩ := by
  simp only [qmul, qconj, normSq, Quat.mk.injEq]
  refine ⟨by ring, by ring, by ring, by ring⟩

theorem sandwich_sandwich (q p : Quat α) (a : Quat α) :
    sandwich q (sandwich p a) = sandwich (qmul q p) a := by
  simp only [sandwich, qconj_qmul, qmul_assoc]

theorem re_sandwich_ofVec (q : Quat α) (v : Vec3 α) :
    (sandwich q (ofVec v)).w = 0 := by
  simp only [sandwich, qmul, qconj, ofVec]
  ring

theorem ofVec_vecOf {a : Quat α} (h : a.w = 0) : ofVec (vecOf a) = a := by
  cases a
  simp only [ofVec, vecOf, Quat.mk.injEq, and_true]
  exact h.symm

theorem rotate_rotate (q p : Quat α) (v : Vec3 α) :
    rotate q (rotate p v) = rotate (qmul q p) v := by
  unfold rotate
  rw [ofVec_vecOf (re_sandwich_ofVec p v), sandwich_sandwich]

theorem sandwich_scalar (n : α) (a : Quat α) :
    sandwich ⟨n, 0, 0, 0⟩ a = ⟨n ^ 2 * a.w, n ^ 2 * a.x, n ^ 2 * a.y, n ^ 2 * a.z⟩ := by
  simp only [sandwich, qmul, qconj, Quat.mk.injEq]
  refine ⟨by ring, by ring, by ring, by ring⟩

theorem rotate_qconj_rotate (q : Quat α) (hq : normSq q = 1) (v : Vec3 α) :
    rotate (qconj q) (rotate q v) = v := by
  rw [rotate_rotate, rotate, qconj_mul_self, hq, sandwich_scalar]
  cases v
  simp [vecOf, ofVec]

/-- `struct FoV` of `sky.rs`: two half-field-of-view scale factors. -/
structure FoV (α : Type) : Type where
  halfFovX : α
  halfFovY : α
deriving DecidableEq

/-- `FoV::project`: gnomonic projection onto the focal plane,
`(x/z/half_fov_x, y/z/half_fov_y)` (`sky.rs` lines 259–264). -/
def project (fov : FoV α) (s : Vec3 α) : α × α :=
  (s.x / s.z / fov.halfFovX, s.y / s.z / fov.halfFovY)

/-- Rust `f32::round`: round to nearest, ties away from zero. -/
def rustRound [FloorRing α] (a : α) : ℤ :=
  if 0 ≤ a then ⌊a + 1 / 2⌋ else -⌊-a + 1 / 2⌋

/-- `FoV::in_box` (`sky.rs` lines 271–277): the (already rounded)
coordinates are kept only when `0 ≤ x < maxx` and `0 ≤ y < maxy`; the upper
bounds are strict (`x >= maxx as f32` is rejected). -/
def inBox (x y : ℤ) (maxx maxy : ℕ) : Option (ℤ × ℤ) :=
  if x < 0 ∨ (maxx : ℤ) ≤ x ∨ y < 0 ∨ (maxy : ℤ) ≤ y then none else some (x, y)

/-- `FoV::to_screen` (`sky.rs` lines 278–286): cull stars behind the
observer (`z <= 0`), project, map each focal-plane axis from `[-1,1]` to
screen range via `(f+1)/2 * max`, round to nearest, and bound-check. -/
def toScreen [FloorRing α] (fov : FoV α) (s : Vec3 α) (maxx maxy : ℕ) :
    Option (ℤ × ℤ) :=
  if s.z ≤ 0 then none
  else
    let fpp := project fov s
    inBox (rustRound ((fpp.1 + 1) / 2 * (maxx : α)))
      (rustRound ((fpp.2 + 1) / 2 * (maxy : α))) maxx maxy

/-- The ascending brightness comparison used by
`stars.sort_by(|a, b| a.1.brightness.total_cmp(&b.1.brightness))`. -/
def brightLe (a b : StBrNm α) : Bool := a.2.1 ≤ b.2.1

/-- The brightness filter shared by both loaders
(`.filter(|sbn| sbn.1.brightness > 0.01)`). -/
def brightFilter (entries : List (StBrNm α)) : List (StBrNm α) :=
  entries.filter fun e => (0.01 : α) < e.2.1

/-- The stable ascending brightness sort of `Sky::from_converted_file`
(Rust `sort_by` is a stable sort, modelled by `List.mergeSort`). -/
def brightSorted (entries : List (StBrNm α)) : List (StBrNm α) :=
  (brightFilter entries).mergeSort brightLe

/-- The body of `Sky::from_converted_file` (`sky.rs` lines 95–107) after the
per-line parse: discard stars with brightness `≤ 0.01`, stable-sort
ascending by brightness, and keep the `min nstars available` last
(brightest) entries: `stars.get(stars.len() - eff_nstars..)`. -/
def fromConvertedEntries (entries : List (StBrNm α)) (nstars : ℕ) :
    List (StBrNm α) :=
  let sorted := brightSorted entries
  let effNstars := min sorted.length nstars
  sorted.drop (sorted.length - effNstars)

/-- The 52 suffix characters of `Sky::random_with_stars`:
`('a'..='z').chain('A'..='Z')`. -/
def letterSuffixes : List Char :=
  "abcdefghijklmnopqrstuvwxyzABCDEFGHIJKLMNOPQRSTUVWXYZ".toList

/-- The synthetic name sequence of `Sky::random_with_stars`:
`consts.iter().cartesian_product(prefs.iter()).map(|(c, p)| format!("{p}{c}"))`,
i.e. for each suffix letter in order, every prefix in order.  The prefix
list is the value iteration of `greek_names_map()` (a Rust `HashMap` whose
iteration order is unspecified), so it is passed as a parameter; the source
map holds 25 entries (a blank plus 24 Greek letters). -/
def starNames (prefs : List String) : List String :=
  (letterSuffixes.map fun c => prefs.map fun p => p ++ c.toString).flatten

/-- `Sky::random_with_stars` (`sky.rs` lines 171–192) with the random draws
made explicit: `pos i` models the `i`-th `Star::new_random() * 10.0` and
`br i` the `i`-th random brightness.  Positions and brightnesses are zipped
with the (finite, 52·|prefs|-long) name sequence — Rust's `zip` stops at the
shorter iterator — and the result is re-expressed as seen from `(5,5,5)`. -/
def randomWithStars (n : ℕ) (pos : ℕ → Vec3 α) (br : ℕ → α)
    (prefs : List String) : List (StBrNm α) :=
  let starsPositions := (List.range n).map pos
  let brightnesses := (List.range n).map br
  let stars := ((starsPositions.zip brightnesses).zip (starNames prefs)).map
    fun e => (e.1.1, e.1.2, e.2)
  seenFrom stars ⟨5, 5, 5⟩

noncomputable section

/-- `Brightness::MAX_MAG`, the reference magnitude of Sirius. -/
def maxMag : ℝ := -1.46

/-- `Brightness::for_magnitude`: `0.01f32.powf((m - MAX_MAG) / 5.0)`
(`sky.rs` lines 23–26), with `powf` idealized as real exponentiation. -/
def forMagnitude (m : ℝ) : ℝ := (0.01 : ℝ) ^ ((m - maxMag) / 5)

/-- `FoV::can_be_seen` (`sky.rs` lines 256–258):
`b.brightness / self.half_fov_x > 0.01f32.powf(0.8)`. -/
def canBeSeen (fov : FoV ℝ) (b : ℝ) : Prop :=
  b / fov.halfFovX > (0.01 : ℝ) ^ (0.8 : ℝ)

open Classical in
/-- `FoV::project_sky_to_screen` (`sky.rs` lines 287–306): one output per
star; `None` when `to_screen` fails or the star cannot be seen
(`sp.is_none() || !self.can_be_seen(b)`), otherwise the screen point, the
display intensity `128 + (b * 127.0).floor()` and the name. -/
def projectSkyToScreen (fov : FoV ℝ) (sky : List (StBrNm ℝ))
    (maxx maxy : ℕ) : List (Option (ℤ × ℤ × ℤ × String)) :=
  sky.map fun e =>
    match toScreen fov e.1 maxx maxy with
    | none => none
    | some sp =>
      if canBeSeen fov e.2.1 then
        some (sp.1, sp.2, 128 + ⌊e.2.1 * (127 : ℝ)⌋, e.2.2)
      else none

end

/-- Numeric value of an ASCII digit. -/
def digitVal (c : Char) : ℕ := c.toNat - 48

/-- Value of a two-digit field, as parsed by `str::parse::<u8>`. -/
def twoDigits (a b : Char) : ℕ := 10 * digitVal a + digitVal b

/-- Value of a digit run. -/
def natOfDigits (cs : List Char) : ℕ :=
  cs.foldl (fun acc c => 10 * acc + digitVal c) 0

/-- `str::trim` restricted to the space characters that can occur in a
magnitude field. -/
def trimSpaces (cs : List Char) : List Char :=
  ((cs.dropWhile (· = ' ')).reverse.dropWhile (· = ' ')).reverse

/-- Character class `[0-9. ]` of the magnitude capture group. -/
def isMagChar (c : Char) : Bool := c.isDigit || c == '.' || c == ' '

/-- `str::parse::<f32>` on a trimmed magnitude field (characters drawn from
`[0-9. ]`), returning the exact decimal value: the parse succeeds exactly
when the field is nonempty, has no interior space, at most one decimal
point and at least one digit. -/
def parseF32 (cs : List Char) : Option ℚ :=
  if cs.isEmpty then none
  else if cs.any (fun c => !(c.isDigit || c == '.')) then none
  else if 2 ≤ (cs.filter (· == '.')).length then none
  else if cs.all (fun c => !c.isDigit) then none
  else
    let intPart := cs.takeWhile (· ≠ '.')
    let fracPart := (cs.dropWhile (· ≠ '.')).drop 1
    some ((natOfDigits intPart : ℚ) +
      (natOfDigits fracPart : ℚ) / (10 : ℚ) ^ fracPart.length)

/-- The numeric fields captured from one catalog line by `Sky::from_line`
(`sky.rs` lines 52–81), before the trigonometric conversion. -/
structure CatFields : Type where
  name : String
  rahh : ℕ
  ramm : ℕ
  rass : ℚ
  deSign : ℚ
  dedeg : ℕ
  demin : ℕ
  desec : ℕ
  magSign : ℚ
  mag : ℚ
deriving DecidableEq

/-- The character of `cs` at index `i` (a space when out of range; all uses
are guarded by a length check). -/
def charAt (cs : List Char) (i : ℕ) : Char := cs.getD i ' '

/-- Digit test at index `i`. -/
def digitAt (cs : List Char) (i : ℕ) : Bool := (charAt cs i).isDigit

/-- The fixed-column pattern of `Sky::from_catalog_file`
(`sky.rs` line 84):
`^.{7}(.{7}).{61}(dd)(dd)(dd.d)([+-])(dd)(dd)(dd).{12}([+ -])([0-9. ]{4})`
where `d` stands for `\d`.  Every piece has fixed width, so the regex
matches exactly when the line is at least 107 characters long and the
characters at the fixed offsets lie in the required classes (lines contain
no newline, so `.` matches any of their characters). -/
def matchOriginal (cs : List Char) : Bool :=
  decide (107 ≤ cs.length)
  && [75, 76, 77, 78, 79, 80, 82, 84, 85, 86, 87, 88, 89].all (digitAt cs)
  && (charAt cs 81 == '.')
  && (charAt cs 83 == '+' || charAt cs 83 == '-')
  && (charAt cs 102 == '+' || charAt cs 102 == ' ' || charAt cs 102 == '-')
  && ((cs.drop 103).take 4).all isMagChar

/-- Field extraction of `Sky::from_line` for the original format, given a
matching line: all two-digit subfields parse unconditionally; only the
trimmed magnitude field can fail to parse (`mag.trim().parse().unwrap()`). -/
def catFieldsO (cs : List Char) : Option CatFields :=
  (parseF32 (trimSpaces ((cs.drop 103).take 4))).map fun m =>
    { name := String.mk ((cs.drop 7).take 7)
      rahh := twoDigits (charAt cs 75) (charAt cs 76)
      ramm := twoDigits (charAt cs 77) (charAt cs 78)
      rass := (twoDigits (charAt cs 79) (charAt cs 80) : ℚ) +
        (digitVal (charAt cs 82) : ℚ) / 10
      deSign := if charAt cs 83 == '+' then 1 else -1
      dedeg := twoDigits (charAt cs 84) (charAt cs 85)
      demin := twoDigits (charAt cs 86) (charAt cs 87)
      desec := twoDigits (charAt cs 88) (charAt cs 89)
      magSign := if charAt cs 102 == '-' then -1 else 1
      mag := m }

/-- A parse failure, identifying the offending line.  `noMatch` models the
panic of `sbn_re.captures(line).unwrap()` on a line that does not match the
fixed layout; `badField` the panic of `parse().unwrap()` on a malformed
numeric subfield. -/
inductive ParseErr : Type where
  | noMatch : String → ParseErr
  | badField : String → ParseErr
deriving DecidableEq

/-- The line a parse error reports. -/
def ParseErr.line : ParseErr → String
  | .noMatch l => l
  | .badField l => l

/-- `Sky::from_line` for the original format, down to the numeric fields.
The two failure modes of the source (panic on a non-matching line, panic on
an unparseable magnitude) are modelled as `Except` errors carrying the
offending line. -/
def fromLineO (line : String) : Except ParseErr CatFields :=
  let cs := line.toList
  if matchOriginal cs then
    match catFieldsO cs with
    | some f => Except.ok f
    | none => Except.error (ParseErr.badField line)
  else Except.error (ParseErr.noMatch line)

/-- The pattern of `Sky::from_converted_file` (`sky.rs` line 96):
`^(.{5}),(dd)(dd)(dd.d),([+-])(dd)(dd)(dd),(-?)([0-9. ]{4})`.  All pieces
have fixed width except the optional minus sign, which shifts the magnitude
field by one position when present (backtracking on the optional group
cannot succeed because `-` is not in `[0-9. ]`). -/
def matchConverted (cs : List Char) : Bool :=
  let neg := charAt cs 23 == '-'
  let magStart := if neg then 24 else 23
  decide (magStart + 4 ≤ cs.length)
  && (charAt cs 5 == ',')
  && [6, 7, 8, 9, 10, 11, 13, 16, 17, 18, 19, 20, 21].all (digitAt cs)
  && (charAt cs 12 == '.')
  && (charAt cs 14 == ',')
  && (charAt cs 15 == '+' || charAt cs 15 == '-')
  && (charAt cs 22 == ',')
  && ((cs.drop magStart).take 4).all isMagChar

/-- Field extraction of `Sky::from_line` for the converted format. -/
def catFieldsC (cs : List Char) : Option CatFields :=
  let neg := charAt cs 23 == '-'
  let magStart := if neg then 24 else 23
  (parseF32 (trimSpaces ((cs.drop magStart).take 4))).map fun m =>
    { name := String.mk (cs.take 5)
      rahh := twoDigits (charAt cs 6) (charAt cs 7)
      ramm := twoDigits (charAt cs 8) (charAt cs 9)
      rass := (twoDigits (charAt cs 10) (charAt cs 11) : ℚ) +
        (digitVal (charAt cs 13) : ℚ) / 10
      deSign := if charAt cs 15 == '+' then 1 else -1
      dedeg := twoDigits (charAt cs 16) (charAt cs 17)
      demin := twoDigits (charAt cs 18) (charAt cs 19)
      desec := twoDigits (charAt cs 20) (charAt cs 21)
      magSign := if neg then -1 else 1
      mag := m }

/-- `Sky::from_line` for the converted format. -/
def fromLineC (line : String) : Except ParseErr CatFields :=
  let cs := line.toList
  if matchConverted cs then
    match catFieldsC cs with
    | some f => Except.ok f
    | none => Except.error (ParseErr.badField line)
  else Except.error (ParseErr.noMatch line)

/-- Per-line traversal of a catalog: the first panic of the source aborts
the whole load, modelled by propagating the first error. -/
def mapExcept {β γ ε : Type} (f : β → Except ε γ) : List β → Except ε (List γ)
  | [] => Except.ok []
  | a :: as =>
    match f a with
    | Except.error e => Except.error e
    | Except.ok b => (mapExcept f as).map fun bs => b :: bs

noncomputable section

/-- The trigonometric conversion of `Sky::from_line`: right ascension in
degrees via `hh*15 + mm/4 + ss/240` and declination via
`sgn * (deg + min/60 + sec/3600)`, both taken `to_radians`, giving the unit
direction `(cos ra * cos dec, sin ra * cos dec, sin dec)`, with brightness
`for_magnitude(sgn * mag)`. -/
def starOfFields (f : CatFields) : StBrNm ℝ :=
  let ra := ((f.rahh : ℝ) * 15 + (f.ramm : ℝ) / 4 + (f.rass : ℝ) / 240) *
    (Real.pi / 180)
  let dec := (f.deSign : ℝ) *
    (((f.dedeg : ℝ) + (f.demin : ℝ) / 60 + (f.desec : ℝ) / 3600) *
      (Real.pi / 180))
  (⟨Real.cos ra * Real.cos dec, Real.sin ra * Real.cos dec, Real.sin dec⟩,
   forMagnitude ((f.magSign : ℝ) * (f.mag : ℝ)), f.name)

/-- `Sky::from_catalog_file` (`sky.rs` lines 83–93) on the list of lines of
the file: parse every line with the original-format pattern, then discard
stars with brightness not exceeding `0.01`. -/
def fromCatalogLines (lines : List String) :
    Except ParseErr (List (StBrNm ℝ)) :=
  (mapExcept (fun l => (fromLineO l).map starOfFields) lines).map fun stars =>
    brightFilter stars

/-- `Sky::from_converted_file` (`sky.rs` lines 95–107) on the list of lines
of the file: parse every line with the converted-format pattern, then
filter, sort and keep the brightest as in `fromConvertedEntries`. -/
def fromConvertedLines (lines : List String) (nstars : ℕ) :
    Except ParseErr (List (StBrNm ℝ)) :=
  (mapExcept (fun l => (fromLineC l).map starOfFields) lines).map fun stars =>
    fromConvertedEntries stars nstars

end

/-! ## Shared helper lemmas -/

theorem seenFrom_getElem (stars : List (StBrNm α)) (p : Vec3 α) (i : ℕ)
    (e : StBrNm α) (h : stars[i]? = some e) :
    (seenFrom stars p)[i]? = some (e.1.sub p, e.2.1, e.2.2) := by
  simp [seenFrom, List.getElem?_map, h]

/-! ## C6: seen_from subtracts the offset pointwise -/

/-- C6: for every Sky and offset `p`, `seen_from p` has the same length, and
its `i`-th entry is the `i`-th original entry with the direction translated
by `-p` and brightness and name unchanged (order is preserved by
construction; the original Sky value is untouched since `seenFrom` builds a
new list). -/
theorem seenFrom_spec (stars : List (StBrNm α)) (p : Vec3 α) :
    (seenFrom stars p).length = stars.length ∧
    ∀ (i : ℕ) (e : StBrNm α), stars[i]? = some e →
      (seenFrom stars p)[i]? = some (e.1.sub p, e.2.1, e.2.2) := by
  refine ⟨by simp [seenFrom], ?_⟩
  intro i e h
  exact seenFrom_getElem stars p i e h

/-- Witness for C6, matching the worked example of the specification:
star `(0,1,2)` seen from `(-1,-2,-3)` moves to `(1,3,5)`. -/
theorem seenFrom_spec_witness :
    (seenFrom [((⟨0, 1, 2⟩ : Vec3 ℚ), 1/2, "a")] ⟨-1, -2, -3⟩)[0]? =
      some (⟨1, 3, 5⟩, 1/2, "a") := by
  have h := (seenFrom_spec [((⟨0, 1, 2⟩ : Vec3 ℚ), 1/2, "a")] ⟨-1, -2, -3⟩).2 0
    ((⟨0, 1, 2⟩ : Vec3 ℚ), 1/2, "a") rfl
  have hsub : (⟨0, 1, 2⟩ : Vec3 ℚ).sub ⟨-1, -2, -3⟩ = ⟨1, 3, 5⟩ := by
    simp [Vec3.sub]; norm_num
  rw [h, hsub]

/-! ## C7: rotating and rotating back restores the Sky -/

/-- C7: for every Sky and unit quaternion `q`,
`with_attitude(q)` followed by `with_attitude(q.inverse())` reproduces the
original star entries exactly (hence within any floating tolerance), with
brightness, names, order and length unchanged. -/
theorem withAttitude_roundtrip (stars : List (StBrNm α)) (q : Quat α)
    (hq : normSq q = 1) :
    withAttitude (qinv q) (withAttitude q stars) = stars := by
  induction stars with
  | nil => rfl
  | cons e t ih =>
    simp only [withAttitude, List.map_cons, List.map_map] at ih ⊢
    rw [show qinv q = qconj q from rfl, rotate_qconj_rotate q hq]
    exact congrArg _ ih

/-- Witness for C7 at a concrete rational unit quaternion. -/
theorem withAttitude_roundtrip_witness :
    withAttitude (qinv ⟨3/5, 4/5, 0, 0⟩)
      (withAttitude (⟨3/5, 4/5, 0, 0⟩ : Quat ℚ) [(⟨1, 2, 3⟩, 1/2, "a")]) =
      [(⟨1, 2, 3⟩, 1/2, "a")] :=
  withAttitude_roundtrip [(⟨1, 2, 3⟩, 1/2, "a")] ⟨3/5, 4/5, 0, 0⟩
    (by simp [normSq]; norm_num)

/-! ## C10: the rotation action respects quaternion composition -/

/-- C10: for every Sky and unit quaternions `p`, `q`, rotating by `p` and
then by `q` equals rotating once by `q * p`, exactly (brightness, names and
order unchanged); incremental rotation composes. -/
theorem withAttitude_comp (stars : List (StBrNm α)) (p q : Quat α)
    (_hp : normSq p = 1) (_hq : normSq q = 1) :
    withAttitude q (withAttitude p stars) = withAttitude (qmul q p) stars := by
  induction stars with
  | nil => rfl
  | cons e t ih =>
    simp only [withAttitude, List.map_cons, List.map_map] at ih ⊢
    rw [rotate_rotate]
    exact congrArg _ ih

/-- Witness for C10 at concrete rational unit quaternions. -/
theorem withAttitude_comp_witness :
    withAttitude (⟨0, 0, 1, 0⟩ : Quat ℚ)
      (withAttitude ⟨3/5, 4/5, 0, 0⟩ [(⟨1, 2, 3⟩, 1/2, "a")]) =
      withAttitude (qmul ⟨0, 0, 1, 0⟩ ⟨3/5, 4/5, 0, 0⟩) [(⟨1, 2, 3⟩, 1/2, "a")] :=
  withAttitude_comp [(⟨1, 2, 3⟩, 1/2, "a")] ⟨3/5, 4/5, 0, 0⟩ ⟨0, 0, 1, 0⟩
    (by norm_num [normSq]) (by norm_num [normSq])

/-! ## C3: brightness is strictly decreasing in magnitude -/

/-- C3: `brightness(m) = 0.01^((m - (-1.46))/5)` is strictly decreasing:
`m1 < m2` implies `brightness(m1) > brightness(m2)`; and
`brightness(-1.46) = 1` exactly. -/
theorem forMagnitude_strictAnti (m1 m2 : ℝ) (h : m1 < m2) :
    forMagnitude m2 < forMagnitude m1 ∧ forMagnitude (-1.46) = 1 := by
  unfold forMagnitude maxMag
  constructor
  · exact Real.rpow_lt_rpow_of_exponent_gt (by norm_num) (by norm_num)
      (by linarith)
  · rw [show ((-1.46 : ℝ) - -1.46) / 5 = 0 by norm_num, Real.rpow_zero]

/-- Witness for C3 at magnitudes `0 < 1`. -/
theorem forMagnitude_strictAnti_witness :
    forMagnitude 1 < forMagnitude 0 ∧ forMagnitude (-1.46) = 1 :=
  forMagnitude_strictAnti 0 1 (by norm_num)

/-! ## C1: to_screen culling and viewport mapping -/

/-- C1 counterexample: the claim says the integer pair is returned exactly
when both rounded coordinates lie within `[0, max]` inclusive.  For the star
`(0,1,2)` with `FoV (1/2, 1/2)` on a `60×60` viewport the rounded
coordinates are `(30, 60)`, both within `[0, 60]` inclusive, yet `to_screen`
returns `None`: `in_box` rejects `y >= maxy`.  All values are exact in
`f32`, so the rational computation mirrors the code exactly. -/
theorem toScreen_inclusive_counterexample :
    toScreen (⟨1/2, 1/2⟩ : FoV ℚ) ⟨0, 1, 2⟩ 60 60 = none ∧
    rustRound (((project (⟨1/2, 1/2⟩ : FoV ℚ) ⟨0, 1, 2⟩).1 + 1) / 2 * 60) = 30 ∧
    rustRound (((project (⟨1/2, 1/2⟩ : FoV ℚ) ⟨0, 1, 2⟩).2 + 1) / 2 * 60) = 60 ∧
    (0 : ℤ) ≤ 30 ∧ (30 : ℤ) ≤ 60 ∧ (0 : ℤ) ≤ 60 ∧ (60 : ℤ) ≤ 60 ∧
    (0 : ℚ) < 2 := by
  refine ⟨?_, ?_, ?_, by norm_num, by norm_num, by norm_num, by norm_num,
    by norm_num⟩
  · simp only [toScreen, project, inBox, rustRound]
    norm_num
  · simp only [project, rustRound]
    norm_num
  · simp only [project, rustRound]
    norm_num

/-- C1 (amended): `to_screen` returns `None` when `z ≤ 0`; otherwise it
rounds `(f+1)/2 * max` on each focal-plane axis to the nearest integer
(ties away from zero) and returns the pair exactly when both rounded
coordinates lie in `[0, max)` — the lower bound inclusive, the upper bound
exclusive — and `None` otherwise. -/
theorem toScreen_spec [FloorRing α] (fov : FoV α) (s : Vec3 α)
    (maxx maxy : ℕ) :
    (s.z ≤ 0 → toScreen fov s maxx maxy = none) ∧
    (0 < s.z →
      toScreen fov s maxx maxy =
        if 0 ≤ rustRound (((project fov s).1 + 1) / 2 * (maxx : α)) ∧
            rustRound (((project fov s).1 + 1) / 2 * (maxx : α)) < (maxx : ℤ) ∧
            0 ≤ rustRound (((project fov s).2 + 1) / 2 * (maxy : α)) ∧
            rustRound (((project fov s).2 + 1) / 2 * (maxy : α)) < (maxy : ℤ) then
          some (rustRound (((project fov s).1 + 1) / 2 * (maxx : α)),
            rustRound (((project fov s).2 + 1) / 2 * (maxy : α)))
        else none) := by
  constructor
  · intro h
    simp [toScreen, h]
  · intro h
    simp only [toScreen]
    rw [if_neg (not_le.mpr h)]
    show inBox _ _ _ _ = _
    rw [inBox]
    set a := rustRound (((project fov s).1 + 1) / 2 * (maxx : α)) with ha
    set c := rustRound (((project fov s).2 + 1) / 2 * (maxy : α)) with hc2
    by_cases hc : 0 ≤ a ∧ a < (maxx : ℤ) ∧ 0 ≤ c ∧ c < (maxy : ℤ)
    · rw [if_neg (by omega), if_pos hc]
    · rw [if_pos (by omega), if_neg hc]

/-- Witness for C1 at concrete inputs: a star behind the observer is culled,
and a visible star maps to the screen point of the source's own test
(`FoV(1,1)`, star `(0,1,2)`, viewport `60×60`, point `(30,45)`). -/
theorem toScreen_spec_witness :
    toScreen (⟨1, 1⟩ : FoV ℚ) ⟨0, 1, -1⟩ 60 60 = none ∧
    toScreen (⟨1, 1⟩ : FoV ℚ) ⟨0, 1, 2⟩ 60 60 = some (30, 45) := by
  constructor
  · exact (toScreen_spec (⟨1, 1⟩ : FoV ℚ) ⟨0, 1, -1⟩ 60 60).1 (by norm_num)
  · rw [(toScreen_spec (⟨1, 1⟩ : FoV ℚ) ⟨0, 1, 2⟩ 60 60).2 (by norm_num)]
    simp only [project, rustRound]
    norm_num

/-! ## C2: project_sky_to_screen -/

open Classical in
/-- C2: `project_sky_to_screen` returns one entry per star in the sky's
order; the entry at index `i` is `None` exactly when `to_screen` returns
`None` or the star fails `can_be_seen`
(`brightness / halfFovX ≤ 0.01^0.8`); otherwise it carries the `to_screen`
coordinates, the star's name and the display intensity
`128 + ⌊brightness·127⌋`, which lies in `[128, 255]` for brightness in
`[0, 1)`. -/
theorem projectSkyToScreen_spec (fov : FoV ℝ) (sky : List (StBrNm ℝ))
    (maxx maxy : ℕ) (i : ℕ) (e : StBrNm ℝ) (he : sky[i]? = some e) :
    (projectSkyToScreen fov sky maxx maxy).length = sky.length ∧
    ((projectSkyToScreen fov sky maxx maxy)[i]? =
      some ((toScreen fov e.1 maxx maxy).bind fun sp =>
        if canBeSeen fov e.2.1 then
          some (sp.1, sp.2, 128 + ⌊e.2.1 * (127 : ℝ)⌋, e.2.2)
        else none)) ∧
    ((projectSkyToScreen fov sky maxx maxy)[i]? = some none ↔
      toScreen fov e.1 maxx maxy = none ∨ ¬ canBeSeen fov e.2.1) ∧
    (0 ≤ e.2.1 → e.2.1 < 1 →
      128 ≤ 128 + ⌊e.2.1 * (127 : ℝ)⌋ ∧ 128 + ⌊e.2.1 * (127 : ℝ)⌋ ≤ 255) := by
  have hval : (projectSkyToScreen fov sky maxx maxy)[i]? =
      some ((toScreen fov e.1 maxx maxy).bind fun sp =>
        if canBeSeen fov e.2.1 then
          some (sp.1, sp.2, 128 + ⌊e.2.1 * (127 : ℝ)⌋, e.2.2)
        else none) := by
    simp only [projectSkyToScreen, List.getElem?_map, he, Option.map_some']
    cases htS : toScreen fov e.1 maxx maxy <;> simp [htS]
  refine ⟨by simp [projectSkyToScreen], hval, ?_, ?_⟩
  · rw [hval]
    cases htS : toScreen fov e.1 maxx maxy with
    | none => simp [htS]
    | some sp =>
      by_cases hcs : canBeSeen fov e.2.1 <;> simp [htS, hcs]
  · intro hb0 hb1
    have hfl0 : 0 ≤ ⌊e.2.1 * (127 : ℝ)⌋ := Int.floor_nonneg.mpr (by nlinarith)
    have hfl1 : ⌊e.2.1 * (127 : ℝ)⌋ < 127 := by
      rw [Int.floor_lt]
      push_cast
      nlinarith
    omega

/-- Witness for C2 at a concrete star from the source's own tests. -/
theorem projectSkyToScreen_spec_witness :
    (projectSkyToScreen ⟨1, 1⟩ [((⟨0, 1, 2⟩ : Vec3 ℝ), 1/2, "a")] 60 60).length
      = 1 ∧
    ((projectSkyToScreen ⟨1, 1⟩ [((⟨0, 1, 2⟩ : Vec3 ℝ), 1/2, "a")] 60 60)[0]? =
      some none ↔
      toScreen (⟨1, 1⟩ : FoV ℝ) ⟨0, 1, 2⟩ 60 60 = none ∨
        ¬ canBeSeen ⟨1, 1⟩ (1/2)) ∧
    (128 : ℤ) ≤ 128 + ⌊(1/2 : ℝ) * 127⌋ ∧ 128 + ⌊(1/2 : ℝ) * 127⌋ ≤ 255 := by
  have h := projectSkyToScreen_spec ⟨1, 1⟩ [((⟨0, 1, 2⟩ : Vec3 ℝ), 1/2, "a")]
    60 60 0 ((⟨0, 1, 2⟩ : Vec3 ℝ), 1/2, "a") rfl
  exact ⟨h.1, h.2.2.1, h.2.2.2 (by norm_num) (by norm_num)⟩

/-! ## C4: down-sampling of the converted-format loader -/

theorem brightLe_trans (a b c : StBrNm α) (h1 : brightLe a b)
    (h2 : brightLe b c) : brightLe a c := by
  simp only [brightLe, decide_eq_true_eq] at *
  exact le_trans h1 h2

theorem brightLe_total (a b : StBrNm α) : brightLe a b || brightLe b a := by
  simp only [brightLe, Bool.or_eq_true, decide_eq_true_eq]
  exact le_total a.2.1 b.2.1

theorem brightSorted_pairwise (entries : List (StBrNm α)) :
    List.Pairwise (fun a b : StBrNm α => a.2.1 ≤ b.2.1)
      (brightSorted entries) := by
  have h := @List.sorted_mergeSort (StBrNm α) brightLe brightLe_trans
    brightLe_total (brightFilter entries)
  exact h.imp fun hab => by simpa [brightLe] using hab

/-- C4: stated on the parsed entries of a converted-format file (the
per-line parse and file I/O are modelled upstream in
`fromConvertedLines`).  The loader keeps exactly `min k available`
entries, where `available` counts the stars surviving the
`brightness > 0.01` filter; the kept entries are the final segment of the
stable ascending brightness sort of the filtered stars (so every discarded
star is at most as bright as every kept one); requesting `k ≥ available`
keeps a permutation of all filtered stars (no padding, no error); and the
result is a pure function of the input, hence loading twice is identical. -/
theorem fromConvertedEntries_spec (entries : List (StBrNm α)) (k : ℕ) :
    (fromConvertedEntries entries k).length =
      min k (brightFilter entries).length ∧
    (brightSorted entries).take
        ((brightFilter entries).length - min k (brightFilter entries).length)
      ++ fromConvertedEntries entries k = brightSorted entries ∧
    List.Pairwise (fun a b : StBrNm α => a.2.1 ≤ b.2.1)
      (brightSorted entries) ∧
    (brightSorted entries).Perm (brightFilter entries) ∧
    (∀ a ∈ (brightSorted entries).take
        ((brightFilter entries).length - min k (brightFilter entries).length),
      ∀ b ∈ fromConvertedEntries entries k, a.2.1 ≤ b.2.1) ∧
    ((brightFilter entries).length ≤ k →
      (fromConvertedEntries entries k).Perm (brightFilter entries)) ∧
    fromConvertedEntries entries k = fromConvertedEntries entries k := by
  have hlen : (brightSorted entries).length = (brightFilter entries).length := by
    simp [brightSorted]
  have hres : fromConvertedEntries entries k = (brightSorted entries).drop
      ((brightFilter entries).length - min k (brightFilter entries).length) := by
    have h0 : fromConvertedEntries entries k = (brightSorted entries).drop
        ((brightSorted entries).length -
          min (brightSorted entries).length k) := rfl
    rw [h0]
    congr 1
    omega
  have hpair := brightSorted_pairwise entries
  have hperm := List.mergeSort_perm (brightFilter entries) brightLe
  refine ⟨?_, ?_, hpair, hperm, ?_, ?_, rfl⟩
  · rw [hres, List.length_drop]
    omega
  · rw [hres, List.take_append_drop]
  · intro a ha b hb
    have hp2 : List.Pairwise (fun a b : StBrNm α => a.2.1 ≤ b.2.1)
        ((brightSorted entries).take
            ((brightFilter entries).length -
              min k (brightFilter entries).length) ++
          (brightSorted entries).drop
            ((brightFilter entries).length -
              min k (brightFilter entries).length)) := by
      rw [List.take_append_drop]
      exact hpair
    rw [hres] at hb
    exact (List.pairwise_append.mp hp2).2.2 a ha b hb
  · intro hk
    rw [hres]
    have h0 : (brightFilter entries).length -
        min k (brightFilter entries).length = 0 := by omega
    rw [h0, List.drop_zero]
    exact hperm

/-- Witness for C4: on three concrete stars (one below the brightness
cut), requesting one star keeps exactly one, and requesting five keeps a
permutation of both surviving stars. -/
theorem fromConvertedEntries_spec_witness :
    (fromConvertedEntries [((⟨0, 0, 0⟩ : Vec3 ℚ), 1/2, "a"),
      (⟨0, 0, 0⟩, 1/4, "b"), (⟨0, 0, 0⟩, 1/200, "c")] 1).length = 1 ∧
    (fromConvertedEntries [((⟨0, 0, 0⟩ : Vec3 ℚ), 1/2, "a"),
      (⟨0, 0, 0⟩, 1/4, "b"), (⟨0, 0, 0⟩, 1/200, "c")] 5).Perm
      (brightFilter [((⟨0, 0, 0⟩ : Vec3 ℚ), 1/2, "a"),
        (⟨0, 0, 0⟩, 1/4, "b"), (⟨0, 0, 0⟩, 1/200, "c")]) := by
  have hfl : (brightFilter [((⟨0, 0, 0⟩ : Vec3 ℚ), 1/2, "a"),
      (⟨0, 0, 0⟩, 1/4, "b"), (⟨0, 0, 0⟩, 1/200, "c")]).length = 2 := by
    simp only [brightFilter, List.filter_cons, List.filter_nil,
      decide_eq_true_eq]
    norm_num
  constructor
  · rw [(fromConvertedEntries_spec [((⟨0, 0, 0⟩ : Vec3 ℚ), 1/2, "a"),
      (⟨0, 0, 0⟩, 1/4, "b"), (⟨0, 0, 0⟩, 1/200, "c")] 1).1, hfl]
    rfl
  · exact (fromConvertedEntries_spec [((⟨0, 0, 0⟩ : Vec3 ℚ), 1/2, "a"),
      (⟨0, 0, 0⟩, 1/4, "b"), (⟨0, 0, 0⟩, 1/200, "c")] 5).2.2.2.2.2.1
      (by rw [hfl]; norm_num)

/-! ## C5: parse failures propagate -/

theorem exceptMap_eq_error {ε γ δ : Type} {x : Except ε γ} {g : γ → δ}
    {e : ε} : x.map g = Except.error e ↔ x = Except.error e := by
  cases x <;> simp [Except.map]

theorem exceptMap_eq_ok {ε γ δ : Type} {x : Except ε γ} {g : γ → δ}
    {d : δ} (h : x.map g = Except.ok d) : ∃ c, x = Except.ok c := by
  cases x with
  | error e => simp [Except.map] at h
  | ok c => exact ⟨c, rfl⟩

theorem mapExcept_eq_error {β γ ε : Type} {f : β → Except ε γ} :
    ∀ {l : List β} {e : ε}, mapExcept f l = Except.error e →
      ∃ a ∈ l, f a = Except.error e := by
  intro l
  induction l with
  | nil => intro e h; simp [mapExcept] at h
  | cons x t ih =>
    intro e h
    rw [mapExcept] at h
    cases hx : f x with
    | error e2 =>
      rw [hx] at h
      cases h
      exact ⟨x, List.mem_cons_self x t, hx⟩
    | ok b =>
      rw [hx] at h
      cases ht : mapExcept f t with
      | error e2 =>
        rw [ht] at h
        cases h
        obtain ⟨a, ha, hfa⟩ := ih ht
        exact ⟨a, List.mem_cons_of_mem x ha, hfa⟩
      | ok bs => rw [ht] at h; simp [Except.map] at h

theorem mapExcept_error_of_mem {β γ ε : Type} (f : β → Except ε γ) :
    ∀ {l : List β} {a : β} {e : ε}, a ∈ l → f a = Except.error e →
      ∃ e2, mapExcept f l = Except.error e2 := by
  intro l
  induction l with
  | nil => intro a e ha; simp at ha
  | cons x t ih =>
    intro a e ha hfa
    rw [mapExcept]
    cases hx : f x with
    | error e2 => exact ⟨e2, rfl⟩
    | ok b =>
      rcases List.mem_cons.mp ha with h | h
      · subst h
        rw [hfa] at hx
        cases hx
      · obtain ⟨e2, h2⟩ := ih h hfa
        rw [h2]
        exact ⟨e2, rfl⟩

theorem mapExcept_eq_ok_forall {β γ ε : Type} {f : β → Except ε γ} :
    ∀ {l : List β} {bs : List γ}, mapExcept f l = Except.ok bs →
      ∀ a ∈ l, ∃ b, f a = Except.ok b := by
  intro l
  induction l with
  | nil => intro bs h a ha; simp at ha
  | cons x t ih =>
    intro bs h a ha
    rw [mapExcept] at h
    cases hx : f x with
    | error e2 => rw [hx] at h; cases h
    | ok b =>
      rw [hx] at h
      cases ht : mapExcept f t with
      | error e2 => rw [ht] at h; simp [Except.map] at h
      | ok bs2 =>
        rcases List.mem_cons.mp ha with hh | hh
        · exact ⟨b, hh ▸ hx⟩
        · exact ih ht a hh

theorem fromLineO_error_line {l : String} {e : ParseErr}
    (h : fromLineO l = Except.error e) : e.line = l := by
  by_cases hm : matchOriginal l.toList
  · rw [fromLineO] at h
    simp only [hm, if_true] at h
    cases hc : catFieldsO l.toList with
    | none => rw [hc] at h; cases h; rfl
    | some f => rw [hc] at h; cases h
  · rw [fromLineO] at h
    simp only [hm, if_false] at h
    cases h
    rfl

/-- C5: a line that does not match the fixed-column layout, or whose
magnitude subfield fails numeric parsing, makes the whole catalog load fail
(the source panics at the first `unwrap`; modelled as a propagated
`Except.error`): the load errs exactly when some line is malformed, the
error identifies the offending line (and re-parsing that line reproduces
it), and a successful load implies every single line parsed — no malformed
line is skipped and no data is fabricated. -/
theorem fromCatalogLines_spec (lines : List String) :
    ((∃ err, fromCatalogLines lines = Except.error err) ↔
      ∃ l ∈ lines, ∃ e2, fromLineO l = Except.error e2) ∧
    (∀ err, fromCatalogLines lines = Except.error err →
      err.line ∈ lines ∧ fromLineO err.line = Except.error err) ∧
    (∀ res, fromCatalogLines lines = Except.ok res →
      ∀ l ∈ lines, ∃ f, fromLineO l = Except.ok f) := by
  refine ⟨⟨?_, ?_⟩, ?_, ?_⟩
  · rintro ⟨err, h⟩
    rw [fromCatalogLines, exceptMap_eq_error] at h
    obtain ⟨a, ha, hga⟩ := mapExcept_eq_error h
    rw [exceptMap_eq_error] at hga
    exact ⟨a, ha, err, hga⟩
  · rintro ⟨l, hl, e2, he2⟩
    have hg : (fun s => (fromLineO s).map starOfFields) l = Except.error e2 :=
      exceptMap_eq_error.mpr he2
    obtain ⟨e3, h3⟩ :=
      mapExcept_error_of_mem (fun s => (fromLineO s).map starOfFields) hl hg
    refine ⟨e3, ?_⟩
    rw [fromCatalogLines, h3]
    rfl
  · intro err h
    rw [fromCatalogLines, exceptMap_eq_error] at h
    obtain ⟨a, ha, hga⟩ := mapExcept_eq_error h
    rw [exceptMap_eq_error] at hga
    have hline := fromLineO_error_line hga
    rw [hline]
    exact ⟨ha, hga⟩
  · intro res h l hl
    rw [fromCatalogLines] at h
    obtain ⟨bs, hbs⟩ := exceptMap_eq_ok h
    obtain ⟨b, hb⟩ := mapExcept_eq_ok_forall hbs l hl
    obtain ⟨c, hc⟩ := exceptMap_eq_ok hb
    exact ⟨c, hc⟩

/-- A 107-character line that matches the fixed layout but whose magnitude
field `....` fails numeric parsing. -/
def badMagLine : String :=
  "       Alp Ori                                                             054945.4+072319            +...."

/-- Witness for C5: a non-matching line `"x"` makes the load fail; a layout-
matching line with magnitude field `....` yields a propagated error naming
that line; and the empty catalog loads with every (no) line parsed. -/
theorem fromCatalogLines_spec_witness :
    (∃ err, fromCatalogLines ["x"] = Except.error err) ∧
    ((ParseErr.badField badMagLine).line ∈ [badMagLine] ∧
      fromLineO (ParseErr.badField badMagLine).line =
        Except.error (ParseErr.badField badMagLine)) ∧
    (∀ l ∈ ([] : List String), ∃ f, fromLineO l = Except.ok f) := by
  refine ⟨?_, ?_, ?_⟩
  · exact (fromCatalogLines_spec ["x"]).1.mpr
      ⟨"x", List.mem_cons_self _ _, ParseErr.noMatch "x", rfl⟩
  · exact (fromCatalogLines_spec [badMagLine]).2.1
      (ParseErr.badField badMagLine) rfl
  · exact (fromCatalogLines_spec []).2.2 [] rfl

/-! ## C8: the brightness-threshold invariant -/

theorem mem_brightFilter {entries : List (StBrNm α)} {e : StBrNm α}
    (h : e ∈ brightFilter entries) : (0.01 : α) < e.2.1 :=
  of_decide_eq_true (List.mem_filter.mp h).2

theorem mem_fromConvertedEntries {entries : List (StBrNm α)} {n : ℕ}
    {e : StBrNm α} (h : e ∈ fromConvertedEntries entries n) :
    (0.01 : α) < e.2.1 := by
  have h2 : e ∈ brightSorted entries := List.mem_of_mem_drop h
  rw [brightSorted, List.mem_mergeSort] at h2
  exact mem_brightFilter h2

/-- C8: every star entry produced by either catalog loader has brightness
strictly greater than `0.01` (both loaders filter on it), and both Sky
transforms `seen_from` and `with_attitude` leave the brightness column
unchanged, so the invariant is preserved by every subsequent operation. -/
theorem brightness_invariant :
    (∀ (lines : List String) (res : List (StBrNm ℝ)),
      fromCatalogLines lines = Except.ok res →
        ∀ e ∈ res, (0.01 : ℝ) < e.2.1) ∧
    (∀ (lines : List String) (n : ℕ) (res : List (StBrNm ℝ)),
      fromConvertedLines lines n = Except.ok res →
        ∀ e ∈ res, (0.01 : ℝ) < e.2.1) ∧
    (∀ (entries : List (StBrNm ℝ)) (n : ℕ),
      ∀ e ∈ fromConvertedEntries entries n, (0.01 : ℝ) < e.2.1) ∧
    (∀ (sky : List (StBrNm ℝ)) (p : Vec3 ℝ),
      (seenFrom sky p).map (fun e => e.2.1) = sky.map fun e => e.2.1) ∧
    (∀ (sky : List (StBrNm ℝ)) (q : Quat ℝ),
      (withAttitude q sky).map (fun e => e.2.1) = sky.map fun e => e.2.1) := by
  refine ⟨?_, ?_, ?_, ?_, ?_⟩
  · intro lines res h e he
    rw [fromCatalogLines] at h
    cases hm : mapExcept (fun l => (fromLineO l).map starOfFields) lines with
    | error e2 => rw [hm] at h; simp [Except.map] at h
    | ok stars =>
      rw [hm] at h
      simp only [Except.map, Except.ok.injEq] at h
      rw [← h] at he
      exact mem_brightFilter he
  · intro lines n res h e he
    rw [fromConvertedLines] at h
    cases hm : mapExcept (fun l => (fromLineC l).map starOfFields) lines with
    | error e2 => rw [hm] at h; simp [Except.map] at h
    | ok stars =>
      rw [hm] at h
      simp only [Except.map, Except.ok.injEq] at h
      rw [← h] at he
      exact mem_fromConvertedEntries he
  · intro entries n e he
    exact mem_fromConvertedEntries he
  · intro sky p
    simp only [seenFrom, List.map_map]
    rfl
  · intro sky q
    simp only [withAttitude, List.map_map]
    rfl

/-- Witness for C8: the empty catalog loads with the invariant holding; a
surviving concrete entry is brighter than the cut; and both transforms keep
the brightness column of a concrete sky. -/
theorem brightness_invariant_witness :
    (∀ e ∈ ([] : List (StBrNm ℝ)), (0.01 : ℝ) < e.2.1) ∧
    ((0.01 : ℝ) < ((⟨0, 0, 0⟩ : Vec3 ℝ), (1/2 : ℝ), "a").2.1) ∧
    (seenFrom [((⟨1, 2, 3⟩ : Vec3 ℝ), 1/2, "a")] ⟨1, 1, 1⟩).map
        (fun e => e.2.1) =
      [((⟨1, 2, 3⟩ : Vec3 ℝ), 1/2, "a")].map (fun e => e.2.1) ∧
    (withAttitude ⟨1, 0, 0, 0⟩ [((⟨1, 2, 3⟩ : Vec3 ℝ), 1/2, "a")]).map
        (fun e => e.2.1) =
      [((⟨1, 2, 3⟩ : Vec3 ℝ), 1/2, "a")].map (fun e => e.2.1) := by
  have hf : brightFilter [((⟨0, 0, 0⟩ : Vec3 ℝ), (1/2 : ℝ), "a")] =
      [((⟨0, 0, 0⟩ : Vec3 ℝ), (1/2 : ℝ), "a")] := by
    simp only [brightFilter, List.filter_cons, List.filter_nil,
      decide_eq_true_eq]
    norm_num
  have hconv : fromConvertedEntries [((⟨0, 0, 0⟩ : Vec3 ℝ), (1/2 : ℝ), "a")] 1 =
      [((⟨0, 0, 0⟩ : Vec3 ℝ), (1/2 : ℝ), "a")] := by
    show (brightSorted _).drop _ = _
    rw [brightSorted, hf, List.mergeSort_singleton]
    rfl
  have hmem : ((⟨0, 0, 0⟩ : Vec3 ℝ), (1/2 : ℝ), "a") ∈
      fromConvertedEntries [((⟨0, 0, 0⟩ : Vec3 ℝ), (1/2 : ℝ), "a")] 1 := by
    rw [hconv]
    exact List.mem_singleton.mpr rfl
  exact ⟨brightness_invariant.1 [] [] rfl,
    brightness_invariant.2.2.1 [((⟨0, 0, 0⟩ : Vec3 ℝ), (1/2 : ℝ), "a")] 1 _ hmem,
    brightness_invariant.2.2.2.1 [((⟨1, 2, 3⟩ : Vec3 ℝ), 1/2, "a")] ⟨1, 1, 1⟩,
    brightness_invariant.2.2.2.2 [((⟨1, 2, 3⟩ : Vec3 ℝ), 1/2, "a")] ⟨1, 0, 0, 0⟩⟩

/-! ## C9: the random Sky constructor -/

/-- The 25 values of `greek_names_map()` in the source's listing order (the
Rust `HashMap` iterates its values in an unspecified order, so the prefix
list is a parameter of `randomWithStars`; only its length matters for the
counting facts below). -/
def greekGlyphs : List String :=
  [" ", "α", "β", "γ", "δ", "ε", "ζ", "η", "θ", "ι", "κ", "λ", "μ", "ν",
   "ξ", "ο", "π", "ρ", "σ", "τ", "ψ", "φ", "υ", "ω", "χ"]

theorem flatten_const_length {β γ : Type} (k : ℕ) (f : β → List γ)
    (hf : ∀ b, (f b).length = k) :
    ∀ l : List β, ((l.map f).flatten).length = l.length * k
  | [] => by simp
  | b :: t => by
    simp [flatten_const_length k f hf t, hf b, Nat.succ_mul, Nat.add_comm]

theorem starNames_length (prefs : List String) :
    (starNames prefs).length = 52 * prefs.length := by
  rw [starNames, flatten_const_length prefs.length _ (fun c => by simp)]
  rfl

theorem zip_map_snd_take {β γ : Type} :
    ∀ (l1 : List β) (l2 : List γ),
      (l1.zip l2).map Prod.snd = l2.take l1.length
  | [], l2 => by simp
  | a :: t, [] => by simp
  | a :: t, b :: u => by simp [zip_map_snd_take t u]

theorem randomWithStars_length (n : ℕ) (pos : ℕ → Vec3 α) (br : ℕ → α)
    (prefs : List String) :
    (randomWithStars n pos br prefs).length = min n (52 * prefs.length) := by
  simp [randomWithStars, seenFrom, starNames_length]

theorem randomWithStars_names (n : ℕ) (pos : ℕ → Vec3 α) (br : ℕ → α)
    (prefs : List String) :
    (randomWithStars n pos br prefs).map (fun e => e.2.2) =
      (starNames prefs).take n := by
  show (seenFrom _ _).map (fun e => e.2.2) = _
  rw [seenFrom, List.map_map, List.map_map]
  have h := zip_map_snd_take
    (((List.range n).map pos).zip ((List.range n).map br)) (starNames prefs)
  have h2 : (((List.range n).map pos).zip ((List.range n).map br)).length
      = n := by simp
  rw [h2] at h
  exact h

/-- C9 counterexample: the claim says the random constructor yields exactly
`n` entries with names cycling through up to `26×25 = 650` combinations,
wrapping when `n` exceeds that count.  With the 25-glyph prefix list,
requesting 1301 stars yields only 1300 entries (the name iterator holds
`52×25 = 1300` names — both lowercase and uppercase Latin suffixes — and
Rust's `zip` truncates instead of wrapping), and `1300 ≠ 1301`; moreover
1300 entries received pairwise-distinct names, exceeding the claimed 650
combinations. -/
theorem randomWithStars_counterexample :
    (randomWithStars 1301 (fun _ => (⟨0, 0, 0⟩ : Vec3 ℚ)) (fun _ => 0)
      greekGlyphs).length = 1300 ∧
    (1300 : ℕ) ≠ 1301 ∧ ¬ (1300 ≤ 650) := by
  refine ⟨?_, by norm_num, by norm_num⟩
  rw [randomWithStars_length]
  rfl

/-- C9 (amended): with the 25 prefix glyphs (in whatever order the hash map
yields them), `random_with_stars(n)` produces `min n 1300` star entries —
the name sequence pairs each of the 52 Latin letters (lowercase then
uppercase) with every prefix, and the `zip` truncates rather than wraps
when `n` exceeds `52×25 = 1300` — and the assigned names are the first `n`
entries of that deterministic prefix×letter sequence. -/
theorem randomWithStars_spec (n : ℕ) (pos : ℕ → Vec3 α) (br : ℕ → α)
    (prefs : List String) (hp : prefs.length = 25) :
    (randomWithStars n pos br prefs).length = min n 1300 ∧
    (randomWithStars n pos br prefs).map (fun e => e.2.2) =
      (starNames prefs).take n := by
  refine ⟨?_, randomWithStars_names n pos br prefs⟩
  rw [randomWithStars_length, hp]

/-- Witness for C9 at `n = 2` with the concrete glyph list. -/
theorem randomWithStars_spec_witness :
    (randomWithStars 2 (fun _ => (⟨0, 0, 0⟩ : Vec3 ℚ)) (fun _ => 0)
      greekGlyphs).length = min 2 1300 ∧
    (randomWithStars 2 (fun _ => (⟨0, 0, 0⟩ : Vec3 ℚ)) (fun _ => 0)
      greekGlyphs).map (fun e => e.2.2) = (starNames greekGlyphs).take 2 :=
  randomWithStars_spec 2 (fun _ => (⟨0, 0, 0⟩ : Vec3 ℚ)) (fun _ => 0)
    greekGlyphs rfl

end Cuyat
